import Mathlib

/-!
Verification of the semantic-tracer core: graph construction
(src-tauri/src/lineage/graph.rs), audit analysis
(src-tauri/src/lineage/analysis.rs) and the query layer
(src-tauri/src/commands.rs), shallowly embedded in Lean.

Modelling conventions:
* Rust `f64` score arithmetic is modelled exactly over `ℚ`, with the
  IEEE special values that the analyzer can produce (`0.0/0.0 = NaN`,
  `x/0.0 = inf`) represented explicitly by the `FVal` type.  Rounding of
  inexact quotients is not modelled; every property considered here is
  about the defining fraction or about exactly representable values.
* `Uuid::new_v4()` (fresh opaque id strings) is modelled by a counter
  that is threaded through the builder and rendered as a string; only
  equality of ids is ever observed by the program.
* `HashMap<String, String>` with insert-overwrites semantics is modelled
  by an association list where insertion prepends and lookup takes the
  first (most recent) binding.
* Display-only data that no analyzed operation ever reads is omitted:
  the `metadata` map of nodes, the `meta` map of columns and the
  `validity_params` JSON blob of dimension type params.
* Rust string formatting with quoted interpolation is rendered by plain
  concatenation without the quote characters; no property depends on
  message texts.
-/

namespace SemanticTracer

/-- Model of the `f64` values produced by the analyzer's score
computations: either NaN (from `0.0/0.0`), infinity (from `x/0.0` with
`x > 0`), or an exact rational value. -/
inductive FVal where
  | nan : FVal
  | inf : FVal
  | val : ℚ → FVal
deriving DecidableEq, Repr

/-- `f64` division as used by the analyzer (both operands are
nonnegative counts cast from `usize`). -/
def fdiv (a b : ℚ) : FVal :=
  if b = 0 then (if a = 0 then FVal.nan else FVal.inf) else FVal.val (a / b)

/-- Multiplication of an `f64` score by the literal `100.0`. -/
def fmul100 : FVal → FVal
  | FVal.nan => FVal.nan
  | FVal.inf => FVal.inf
  | FVal.val q => FVal.val (q * 100)

/-! ## Data model (src-tauri/src/types.rs) -/

structure DbtColumn where
  name : String
  description : Option String
  data_type : Option String
  tests : List String
deriving DecidableEq, Repr

structure DbtSourceRef where
  source_name : String
  table_name : String
deriving DecidableEq, Repr

structure DbtModel where
  unique_id : String
  name : String
  schema : Option String
  database : Option String
  description : Option String
  columns : List DbtColumn
  depends_on : List String
  refs : List String
  sources : List DbtSourceRef
  file_path : String
  raw_sql : Option String
  materialization : Option String
  tags : List String
deriving DecidableEq, Repr

structure DbtFreshnessRule where
  count : Int
  period : String
deriving DecidableEq, Repr

structure DbtFreshness where
  warn_after : Option DbtFreshnessRule
  error_after : Option DbtFreshnessRule
deriving DecidableEq, Repr

structure DbtSource where
  unique_id : String
  source_name : String
  name : String
  schema : Option String
  database : Option String
  description : Option String
  columns : List DbtColumn
  loader : Option String
  freshness : Option DbtFreshness
  tags : List String
deriving DecidableEq, Repr

structure SemanticModelDefaults where
  agg_time_dimension : Option String
deriving DecidableEq, Repr

structure SemanticEntity where
  name : String
  entity_type : String
  expr : Option String
  description : Option String
deriving DecidableEq, Repr

structure NonAdditiveDimension where
  name : String
  window_choice : Option String
deriving DecidableEq, Repr

structure Measure where
  name : String
  agg : String
  expr : Option String
  description : Option String
  create_metric : Option Bool
  non_additive_dimension : Option NonAdditiveDimension
deriving DecidableEq, Repr

structure DimensionTypeParams where
  time_granularity : Option String
deriving DecidableEq, Repr

structure Dimension where
  name : String
  dimension_type : String
  expr : Option String
  description : Option String
  type_params : Option DimensionTypeParams
deriving DecidableEq, Repr

structure SemanticModel where
  name : String
  description : Option String
  model : String
  defaults : Option SemanticModelDefaults
  entities : List SemanticEntity
  measures : List Measure
  dimensions : List Dimension
deriving DecidableEq, Repr

structure MeasureRef where
  name : String
  filter : Option String
  alias_ : Option String
deriving DecidableEq, Repr

structure MetricRef where
  name : String
  offset_window : Option String
  offset_to_grain : Option String
deriving DecidableEq, Repr

structure MetricTypeParams where
  measure : Option MeasureRef
  expr : Option String
  metrics : Option (List MetricRef)
  window : Option String
  grain_to_date : Option String
deriving DecidableEq, Repr

structure Metric where
  name : String
  description : Option String
  metric_type : String
  type_params : MetricTypeParams
  filter : Option String
  label : Option String
deriving DecidableEq, Repr

inductive LineageNodeType where
  | Metric
  | Measure
  | Dimension
  | Entity
  | Model
  | Source
deriving DecidableEq, Repr

/-- Debug rendering of a node type, as produced by Rust format `{:?}`. -/
def LineageNodeType.debugName : LineageNodeType → String
  | .Metric => "Metric"
  | .Measure => "Measure"
  | .Dimension => "Dimension"
  | .Entity => "Entity"
  | .Model => "Model"
  | .Source => "Source"

structure LineageNode where
  id : String
  node_type : LineageNodeType
  name : String
  description : Option String
deriving DecidableEq, Repr

inductive LineageEdgeType where
  | MetricToMeasure
  | MeasureToEntity
  | EntityToModel
  | ModelToModel
  | ModelToSource
  | DimensionToEntity
  | MetricToMetric
deriving DecidableEq, Repr

structure LineageEdge where
  id : String
  source : String
  target : String
  edge_type : LineageEdgeType
  label : Option String
deriving DecidableEq, Repr

structure LineageGraph where
  nodes : List LineageNode
  edges : List LineageEdge
deriving DecidableEq, Repr

inductive IssueSeverity where
  | Error
  | Warning
  | Info
deriving DecidableEq, Repr

inductive IssueType where
  | MissingDescription
  | OrphanedModel
  | OrphanedMetric
  | MissingSource
  | CircularDependency
  | MissingMeasure
  | UndocumentedColumn
  | NoTests
deriving DecidableEq, Repr

structure AuditIssue where
  severity : IssueSeverity
  issue_type : IssueType
  message : String
  node_id : Option String
  suggestion : Option String
deriving DecidableEq, Repr

structure AuditSummary where
  total_metrics : Nat
  total_measures : Nat
  total_models : Nat
  total_sources : Nat
  documented_metrics : Nat
  documented_models : Nat
  tested_models : Nat
  orphaned_models : Nat
deriving DecidableEq, Repr

structure AuditResult where
  completeness_score : FVal
  documentation_coverage : FVal
  model_coverage : FVal
  issues : List AuditIssue
  summary : AuditSummary
deriving DecidableEq, Repr

structure DbtProject where
  name : String
  version : Option String
  config_version : Option Int
  profile : Option String
  model_paths : List String
  seed_paths : List String
  test_paths : List String
  analysis_paths : List String
  macro_paths : List String
  target_path : Option String
deriving DecidableEq, Repr

structure ParseResult where
  success : Bool
  dbt_project : Option DbtProject
  models : List DbtModel
  sources : List DbtSource
  semantic_models : List SemanticModel
  metrics : List Metric
  lineage : LineageGraph
  audit : AuditResult
  errors : List String
  warnings : List String
deriving DecidableEq, Repr

/-- `ParseResult::default()` (types.rs). -/
def ParseResult.default : ParseResult where
  success := false
  dbt_project := none
  models := []
  sources := []
  semantic_models := []
  metrics := []
  lineage := { nodes := [], edges := [] }
  audit :=
    { completeness_score := FVal.val 0
      documentation_coverage := FVal.val 0
      model_coverage := FVal.val 0
      issues := []
      summary :=
        { total_metrics := 0, total_measures := 0, total_models := 0
          total_sources := 0, documented_metrics := 0, documented_models := 0
          tested_models := 0, orphaned_models := 0 } }
  errors := []
  warnings := []

/-! ## Graph builder (src-tauri/src/lineage/graph.rs)

The builder's mutable state: node and edge vectors, the resolution-key
map, and the counter modelling the supply of fresh UUID strings. -/

structure BuilderState where
  nodes : List LineageNode
  edges : List LineageEdge
  node_ids : List (String × String)
  fresh : Nat
deriving Repr

/-- A fresh synthetic id (models `Uuid::new_v4().to_string()`). -/
def mkId (n : Nat) : String := "uuid-" ++ toString n

/-- `HashMap::get` on the resolution map: the most recent binding wins. -/
def lookupId (m : List (String × String)) (k : String) : Option String :=
  (m.find? (fun p => decide (p.1 = k))).map (fun p => p.2)

namespace LineageBuilder

def add_source_node (st : BuilderState) (source : DbtSource) : BuilderState :=
  let id := mkId st.fresh
  let key := "source." ++ source.source_name ++ "." ++ source.name
  { st with
    fresh := st.fresh + 1
    nodes := st.nodes ++ [{ id := id, node_type := LineageNodeType.Source,
                            name := source.name, description := source.description }]
    node_ids := (key, id) :: st.node_ids }

def add_model_node (st : BuilderState) (model : DbtModel) : BuilderState :=
  let id := mkId st.fresh
  let key := "model." ++ model.name
  { st with
    fresh := st.fresh + 1
    nodes := st.nodes ++ [{ id := id, node_type := LineageNodeType.Model,
                            name := model.name, description := model.description }]
    node_ids := (key, id) :: st.node_ids }

/-- Loop body of the `for ref_name in &model.refs` loop of
`add_model_edges`. -/
def add_ref_edge (model_id : String) (s : BuilderState) (ref_name : String) :
    BuilderState :=
  match lookupId s.node_ids ("model." ++ ref_name) with
  | some ref_id =>
    { s with fresh := s.fresh + 1
             edges := s.edges ++ [{ id := mkId s.fresh, source := model_id,
                                    target := ref_id,
                                    edge_type := LineageEdgeType.ModelToModel,
                                    label := some "ref" }] }
  | none => s

/-- Loop body of the `for source_ref in &model.sources` loop of
`add_model_edges`. -/
def add_source_ref_edge (model_id : String) (s : BuilderState)
    (source_ref : DbtSourceRef) : BuilderState :=
  match lookupId s.node_ids
      ("source." ++ source_ref.source_name ++ "." ++ source_ref.table_name) with
  | some source_id =>
    { s with fresh := s.fresh + 1
             edges := s.edges ++ [{ id := mkId s.fresh, source := model_id,
                                    target := source_id,
                                    edge_type := LineageEdgeType.ModelToSource,
                                    label := some "source" }] }
  | none => s

def add_model_edges (st : BuilderState) (model : DbtModel) : BuilderState :=
  match lookupId st.node_ids ("model." ++ model.name) with
  | none => st
  | some model_id =>
    model.sources.foldl (add_source_ref_edge model_id)
      (model.refs.foldl (add_ref_edge model_id) st)

def add_entity_node (sm : SemanticModel) (st : BuilderState) (entity : SemanticEntity) :
    BuilderState :=
  let id := mkId st.fresh
  let key := "entity." ++ sm.name ++ "." ++ entity.name
  let st := { st with
    fresh := st.fresh + 1
    nodes := st.nodes ++ [{ id := id, node_type := LineageNodeType.Entity,
                            name := entity.name, description := entity.description }]
    node_ids := (key, id) :: st.node_ids }
  match lookupId st.node_ids ("model." ++ sm.model) with
  | some model_id =>
    { st with fresh := st.fresh + 1
              edges := st.edges ++ [{ id := mkId st.fresh, source := id,
                                      target := model_id,
                                      edge_type := LineageEdgeType.EntityToModel,
                                      label := none }] }
  | none => st

def add_measure_node (sm : SemanticModel) (st : BuilderState) (measure : Measure) :
    BuilderState :=
  let id := mkId st.fresh
  let key := "measure." ++ sm.name ++ "." ++ measure.name
  let st := { st with
    fresh := st.fresh + 1
    nodes := st.nodes ++ [{ id := id, node_type := LineageNodeType.Measure,
                            name := measure.name, description := measure.description }]
    node_ids := (key, id) :: st.node_ids }
  match sm.entities.find? (fun e => decide (e.entity_type = "primary")) with
  | some entity =>
    match lookupId st.node_ids ("entity." ++ sm.name ++ "." ++ entity.name) with
    | some entity_id =>
      { st with fresh := st.fresh + 1
                edges := st.edges ++ [{ id := mkId st.fresh, source := id,
                                        target := entity_id,
                                        edge_type := LineageEdgeType.MeasureToEntity,
                                        label := none }] }
    | none => st
  | none => st

def add_dimension_node (sm : SemanticModel) (st : BuilderState) (dim : Dimension) :
    BuilderState :=
  let id := mkId st.fresh
  let key := "dimension." ++ sm.name ++ "." ++ dim.name
  let st := { st with
    fresh := st.fresh + 1
    nodes := st.nodes ++ [{ id := id, node_type := LineageNodeType.Dimension,
                            name := dim.name, description := dim.description }]
    node_ids := (key, id) :: st.node_ids }
  match sm.entities.find? (fun e => decide (e.entity_type = "primary")) with
  | some entity =>
    match lookupId st.node_ids ("entity." ++ sm.name ++ "." ++ entity.name) with
    | some entity_id =>
      { st with fresh := st.fresh + 1
                edges := st.edges ++ [{ id := mkId st.fresh, source := id,
                                        target := entity_id,
                                        edge_type := LineageEdgeType.DimensionToEntity,
                                        label := none }] }
    | none => st
  | none => st

def add_semantic_model_nodes (st : BuilderState) (sm : SemanticModel) : BuilderState :=
  let st := sm.entities.foldl (add_entity_node sm) st
  let st := sm.measures.foldl (add_measure_node sm) st
  sm.dimensions.foldl (add_dimension_node sm) st

def add_metric_node (st : BuilderState) (metric : Metric) : BuilderState :=
  let id := mkId st.fresh
  let key := "metric." ++ metric.name
  { st with
    fresh := st.fresh + 1
    nodes := st.nodes ++ [{ id := id, node_type := LineageNodeType.Metric,
                            name := metric.name, description := metric.description }]
    node_ids := (key, id) :: st.node_ids }

/-- Scan the semantic models in declaration order for the first one whose
measure key resolves (the `for sm in semantic_models { ... break }` loop). -/
def find_measure_id (node_ids : List (String × String)) (sms : List SemanticModel)
    (measure_name : String) : Option String :=
  match sms with
  | [] => none
  | sm :: rest =>
    match lookupId node_ids ("measure." ++ sm.name ++ "." ++ measure_name) with
    | some i => some i
    | none => find_measure_id node_ids rest measure_name

/-- Loop body of the `for metric_ref in metric_refs` loop of
`add_metric_edges` (the "derived" branch). -/
def add_derived_ref_edge (metric_id : String) (s : BuilderState)
    (metric_ref : MetricRef) : BuilderState :=
  match lookupId s.node_ids ("metric." ++ metric_ref.name) with
  | some ref_id =>
    { s with fresh := s.fresh + 1
             edges := s.edges ++ [{ id := mkId s.fresh, source := metric_id,
                                    target := ref_id,
                                    edge_type := LineageEdgeType.MetricToMetric,
                                    label := metric_ref.offset_window }] }
  | none => s

def add_metric_edges (st : BuilderState) (metric : Metric)
    (semantic_models : List SemanticModel) : BuilderState :=
  match lookupId st.node_ids ("metric." ++ metric.name) with
  | none => st
  | some metric_id =>
    if metric.metric_type = "simple" ∨ metric.metric_type = "cumulative" then
      match metric.type_params.measure with
      | some measure_ref =>
        match find_measure_id st.node_ids semantic_models measure_ref.name with
        | some measure_id =>
          { st with fresh := st.fresh + 1
                    edges := st.edges ++ [{ id := mkId st.fresh, source := metric_id,
                                            target := measure_id,
                                            edge_type := LineageEdgeType.MetricToMeasure,
                                            label := none }] }
        | none => st
      | none => st
    else if metric.metric_type = "derived" then
      match metric.type_params.metrics with
      | some metric_refs => metric_refs.foldl (add_derived_ref_edge metric_id) st
      | none => st
    else st

/-- `LineageBuilder::build`: the six construction passes in order. -/
def build (models : List DbtModel) (sources : List DbtSource)
    (semantic_models : List SemanticModel) (metrics : List Metric) : LineageGraph :=
  let st : BuilderState := { nodes := [], edges := [], node_ids := [], fresh := 0 }
  let st := sources.foldl add_source_node st
  let st := models.foldl add_model_node st
  let st := models.foldl add_model_edges st
  let st := semantic_models.foldl add_semantic_model_nodes st
  let st := metrics.foldl add_metric_node st
  let st := metrics.foldl (fun s m => add_metric_edges s m semantic_models) st
  { nodes := st.nodes, edges := st.edges }

end LineageBuilder

/-! ## Worklist traversal

All three traversals in the source (`has_complete_lineage`,
`get_metric_lineage`, `get_impact_analysis`) are the same loop: a `Vec`
used as a stack (`queue.pop()` removes the most recently pushed id), a
visited set, and pushes of the unvisited far endpoints of all edges
whose near endpoint is the current id.  `sel` selects the (near, far)
endpoints of an edge: `(source, target)` for the forward traversals,
`(target, source)` for the reverse one.  The stack is represented with
its top at the head, so a batch of pushes prepends the reversed batch.

The loop terminates because each iteration either shrinks the stack or
grows the visited set, whose elements are drawn from the finite set of
edge endpoints; this is expressed with a fuel parameter large enough to
never run out (`traverse_complete` below establishes the bound). -/

def forwardSel (e : LineageEdge) : String × String := (e.source, e.target)

def reverseSel (e : LineageEdge) : String × String := (e.target, e.source)

/-- Fuel that provably dominates the iteration count of the worklist
loop started with a single seed id and an empty visited set. -/
def bfsFuel (edges : List LineageEdge) : Nat :=
  (edges.length + 2) * (edges.length + 2)

/-- The worklist loop collecting the visited set (the source's
`visited` and `relevant_node_ids` sets always hold the same ids, so a
single set is carried). -/
def traverseF (edges : List LineageEdge) (sel : LineageEdge → String × String) :
    Nat → List String → List String → List String
  | 0, _, visited => visited
  | _ + 1, [], visited => visited
  | fuel + 1, c :: rest, visited =>
    if c ∈ visited then traverseF edges sel fuel rest visited
    else
      let visited' := c :: visited
      traverseF edges sel fuel
        (((edges.filter (fun e => decide ((sel e).1 = c ∧ (sel e).2 ∉ visited'))).map
            (fun e => (sel e).2)).reverse ++ rest)
        visited'

/-! ## Audit analysis (src-tauri/src/lineage/analysis.rs) -/

namespace LineageAnalyzer

def check_missing_descriptions (graph : LineageGraph) : List AuditIssue :=
  (graph.nodes.filter (fun node => node.description.isNone)).map (fun node =>
    { severity :=
        match node.node_type with
        | LineageNodeType.Metric => IssueSeverity.Warning
        | LineageNodeType.Model => IssueSeverity.Warning
        | _ => IssueSeverity.Info
      issue_type := IssueType.MissingDescription
      message := node.node_type.debugName ++ " " ++ node.name ++ " is missing a description"
      node_id := some node.id
      suggestion := some ("Add a description to help users understand what "
        ++ node.name ++ " represents") })

/-- The issue literal emitted by `check_orphaned_models` for one model. -/
def orphanedModelIssue (graph : LineageGraph) (m : DbtModel) : AuditIssue :=
  { severity := IssueSeverity.Info
    issue_type := IssueType.OrphanedModel
    message := "Model " ++ m.name ++ " is not used by any semantic model or other model"
    node_id := (graph.nodes.find? (fun n =>
      decide (n.name = m.name ∧ n.node_type = LineageNodeType.Model))).map (fun n => n.id)
    suggestion := some "Consider removing unused models or documenting their purpose" }

/-- The `referenced_models` set of `check_orphaned_models`: the names of
the first Model-typed node found at the target of each edge. -/
def referenced_model_names (graph : LineageGraph) : List String :=
  graph.edges.filterMap (fun e =>
    (graph.nodes.find? (fun n =>
      decide (n.id = e.target ∧ n.node_type = LineageNodeType.Model))).map (fun n => n.name))

def check_orphaned_models (graph : LineageGraph) (models : List DbtModel) :
    List AuditIssue :=
  (models.filter (fun m => decide (m.name ∉ referenced_model_names graph))).map
    (orphanedModelIssue graph)

/-- The issue literal emitted by `check_orphaned_metrics` for one node. -/
def orphanedMetricIssue (n : LineageNode) : AuditIssue :=
  { severity := IssueSeverity.Error
    issue_type := IssueType.OrphanedMetric
    message := "Metric " ++ n.name ++ " has no connection to any measure"
    node_id := some n.id
    suggestion := some "Check the metric definition - it may be missing a measure reference" }

/-- The `metric_node_ids` set of `check_orphaned_metrics`. -/
def metric_node_ids (graph : LineageGraph) : List String :=
  (graph.nodes.filter (fun n => decide (n.node_type = LineageNodeType.Metric))).map
    (fun n => n.id)

/-- The `connected_metrics` set of `check_orphaned_metrics`: sources of
edges whose source is a metric node id. -/
def connected_metric_ids (graph : LineageGraph) : List String :=
  (graph.edges.filter (fun e => decide (e.source ∈ metric_node_ids graph))).map
    (fun e => e.source)

def check_orphaned_metrics (graph : LineageGraph) (_metrics : List Metric) :
    List AuditIssue :=
  (graph.nodes.filter (fun n =>
    decide (n.node_type = LineageNodeType.Metric ∧ n.id ∉ connected_metric_ids graph))).map
    orphanedMetricIssue

def check_missing_sources (models : List DbtModel) (sources : List DbtSource) :
    List AuditIssue :=
  let source_names : List String :=
    sources.map (fun s => s.source_name ++ "." ++ s.name)
  models.foldl (fun issues model =>
    model.sources.foldl (fun issues source_ref =>
      let key := source_ref.source_name ++ "." ++ source_ref.table_name
      if key ∈ source_names then issues
      else issues ++ [{ severity := IssueSeverity.Error
                        issue_type := IssueType.MissingSource
                        message := "Model " ++ model.name ++ " references undefined source " ++ key
                        node_id := none
                        suggestion := some ("Define source " ++ key ++ " in a schema.yml file") }])
      issues) []

def check_undocumented_columns (models : List DbtModel) : List AuditIssue :=
  models.flatMap (fun model =>
    (model.columns.filter (fun col => col.description.isNone)).map (fun col =>
      { severity := IssueSeverity.Info
        issue_type := IssueType.UndocumentedColumn
        message := "Column " ++ col.name ++ " in model " ++ model.name ++ " is not documented"
        node_id := none
        suggestion := some "Add a description to help users understand this column" }))

def check_models_without_tests (models : List DbtModel) : List AuditIssue :=
  (models.filter (fun m => m.columns.all (fun c => c.tests.isEmpty))).map (fun m =>
    { severity := IssueSeverity.Warning
      issue_type := IssueType.NoTests
      message := "Model " ++ m.name ++ " has no tests defined"
      node_id := none
      suggestion := some "Add tests for key columns (unique, not_null, accepted_values)" })

def calculate_summary (models : List DbtModel) (sources : List DbtSource)
    (semantic_models : List SemanticModel) (metrics : List Metric)
    (issues : List AuditIssue) : AuditSummary :=
  { total_metrics := metrics.length
    total_measures := (semantic_models.map (fun sm => sm.measures.length)).sum
    total_models := models.length
    total_sources := sources.length
    documented_metrics := (metrics.filter (fun m => m.description.isSome)).length
    documented_models := (models.filter (fun m => m.description.isSome)).length
    tested_models := (models.filter (fun m => m.columns.any (fun c => !c.tests.isEmpty))).length
    orphaned_models := (issues.filter (fun i =>
      decide (i.issue_type = IssueType.OrphanedModel))).length }

/-- The `if let Some(node) = graph.nodes.iter().find(|n| n.id == current)`
test of `has_complete_lineage`: whether the first node carrying the
given id is a Source node. -/
def isSourceId (graph : LineageGraph) (c : String) : Bool :=
  (graph.nodes.find? (fun n => decide (n.id = c))).any
    (fun n => decide (n.node_type = LineageNodeType.Source))

/-- The body of `has_complete_lineage`: the forward worklist loop with
an early `return true` as soon as the node found for the current id is
a Source.  Identical to `traverseF` apart from the early exit. -/
def has_complete_lineage_loop (graph : LineageGraph) :
    Nat → List String → List String → Bool
  | 0, _, _ => false
  | _ + 1, [], _ => false
  | fuel + 1, c :: rest, visited =>
    if c ∈ visited then has_complete_lineage_loop graph fuel rest visited
    else
      let visited' := c :: visited
      if isSourceId graph c then true
      else
        has_complete_lineage_loop graph fuel
          (((graph.edges.filter (fun e =>
              decide ((forwardSel e).1 = c ∧ (forwardSel e).2 ∉ visited'))).map
              (fun e => (forwardSel e).2)).reverse ++ rest)
          visited'

def has_complete_lineage (graph : LineageGraph) (start_id : String) : Bool :=
  has_complete_lineage_loop graph (bfsFuel graph.edges) [start_id] []

def calculate_completeness_score (graph : LineageGraph) (metrics : List Metric)
    (_semantic_models : List SemanticModel) : FVal :=
  if metrics.isEmpty then FVal.val 100
  else
    let metric_nodes :=
      graph.nodes.filter (fun n => decide (n.node_type = LineageNodeType.Metric))
    let complete_metrics :=
      (metric_nodes.filter (fun m => has_complete_lineage graph m.id)).length
    fmul100 (fdiv (complete_metrics : ℚ) (metric_nodes.length : ℚ))

def calculate_documentation_coverage (graph : LineageGraph) : FVal :=
  if graph.nodes.isEmpty then FVal.val 100
  else
    let documented := (graph.nodes.filter (fun n => n.description.isSome)).length
    fmul100 (fdiv (documented : ℚ) (graph.nodes.length : ℚ))

def calculate_model_coverage (models : List DbtModel)
    (semantic_models : List SemanticModel) : FVal :=
  if models.isEmpty then FVal.val 100
  else
    let referenced_models : List String := semantic_models.map (fun sm => sm.model)
    let used_models :=
      (models.filter (fun m => decide (m.name ∈ referenced_models))).length
    fmul100 (fdiv (used_models : ℚ) (models.length : ℚ))

/-- `LineageAnalyzer::analyze`: the six checks in order, the summary and
the three scores. -/
def analyze (graph : LineageGraph) (models : List DbtModel) (sources : List DbtSource)
    (semantic_models : List SemanticModel) (metrics : List Metric) : AuditResult :=
  let issues :=
    check_missing_descriptions graph
    ++ check_orphaned_models graph models
    ++ check_orphaned_metrics graph metrics
    ++ check_missing_sources models sources
    ++ check_undocumented_columns models
    ++ check_models_without_tests models
  { completeness_score := calculate_completeness_score graph metrics semantic_models
    documentation_coverage := calculate_documentation_coverage graph
    model_coverage := calculate_model_coverage models semantic_models
    issues := issues
    summary := calculate_summary models sources semantic_models metrics issues }

end LineageAnalyzer

/-! ## Query layer (src-tauri/src/commands.rs) -/

/-- `get_metric_lineage`: upstream lineage of the first Metric node with
the given name, or a not-found error. -/
def get_metric_lineage (parse_result : ParseResult) (metric_name : String) :
    Except String ParseResult :=
  match parse_result.lineage.nodes.find? (fun n =>
      decide (n.name = metric_name ∧ n.node_type = LineageNodeType.Metric)) with
  | none => Except.error ("Metric " ++ metric_name ++ " not found")
  | some metric_node =>
    let relevant_node_ids :=
      traverseF parse_result.lineage.edges forwardSel
        (bfsFuel parse_result.lineage.edges) [metric_node.id] []
    Except.ok { ParseResult.default with
      success := true
      lineage :=
        { nodes := parse_result.lineage.nodes.filter (fun n =>
            decide (n.id ∈ relevant_node_ids))
          edges := parse_result.lineage.edges.filter (fun e =>
            decide (e.source ∈ relevant_node_ids ∧ e.target ∈ relevant_node_ids)) } }

/-- `get_impact_analysis`: downstream impact of the first node with the
given name (any node type), via the reverse traversal. -/
def get_impact_analysis (parse_result : ParseResult) (node_name : String) :
    Except String ParseResult :=
  match parse_result.lineage.nodes.find? (fun n => decide (n.name = node_name)) with
  | none => Except.error ("Node " ++ node_name ++ " not found")
  | some target_node =>
    let relevant_node_ids :=
      traverseF parse_result.lineage.edges reverseSel
        (bfsFuel parse_result.lineage.edges) [target_node.id] []
    Except.ok { ParseResult.default with
      success := true
      lineage :=
        { nodes := parse_result.lineage.nodes.filter (fun n =>
            decide (n.id ∈ relevant_node_ids))
          edges := parse_result.lineage.edges.filter (fun e =>
            decide (e.source ∈ relevant_node_ids ∧ e.target ∈ relevant_node_ids)) } }

/-! ## Builder invariant

Every id the resolution map can hand out is the id of a node already in
the node vector, and every emitted edge has both endpoints resolved, so
the builder can never emit a dangling edge. -/

def NodeIdsOk (st : BuilderState) : Prop :=
  ∀ kv ∈ st.node_ids, ∃ n ∈ st.nodes, n.id = kv.2

def EdgesOk (st : BuilderState) : Prop :=
  ∀ e ∈ st.edges,
    (∃ n ∈ st.nodes, n.id = e.source) ∧ (∃ n ∈ st.nodes, n.id = e.target)

def StInv (st : BuilderState) : Prop := NodeIdsOk st ∧ EdgesOk st

/-- One step of the traversal relation: some edge has near endpoint `a`
and far endpoint `b`. -/
def EdgeStep (edges : List LineageEdge) (sel : LineageEdge → String × String)
    (a b : String) : Prop :=
  ∃ e ∈ edges, (sel e).1 = a ∧ (sel e).2 = b

/-- The claim-level reachability predicate: some Source-typed node of
the graph is reachable from `start` along the forward edge relation. -/
def reachesSource (graph : LineageGraph) (start : String) : Prop :=
  ∃ m ∈ graph.nodes, m.node_type = LineageNodeType.Source ∧
    Relation.ReflTransGen (EdgeStep graph.edges forwardSel) start m.id

/-- The set of node ids appearing in a query result (empty for a
not-found error). -/
def resultNodeIds : Except String ParseResult → List String
  | Except.error _ => []
  | Except.ok r => r.lineage.nodes.map LineageNode.id

/-! ## Concrete inputs used by witnesses and counterexamples -/

/-- A metric node wired to a source node through one edge. -/
def c1_graph : LineageGraph :=
  { nodes := [{ id := "m1", node_type := LineageNodeType.Metric, name := "rev",
                description := none },
              { id := "s1", node_type := LineageNodeType.Source, name := "orders",
                description := none }],
    edges := [{ id := "e1", source := "m1", target := "s1",
                edge_type := LineageEdgeType.MetricToMeasure, label := none }] }

def c1_metric : Metric :=
  { name := "rev", description := none, metric_type := "simple",
    type_params := { measure := none, expr := none, metrics := none,
                     window := none, grain_to_date := none },
    filter := none, label := none }

def c2_model_a : DbtModel :=
  { unique_id := "model.a", name := "a", schema := none, database := none,
    description := none, columns := [], depends_on := [], refs := ["b"],
    sources := [], file_path := "models/a.sql", raw_sql := none,
    materialization := none, tags := [] }

def c2_model_b : DbtModel :=
  { unique_id := "model.b", name := "b", schema := none, database := none,
    description := none, columns := [], depends_on := [], refs := [],
    sources := [], file_path := "models/b.sql", raw_sql := none,
    materialization := none, tags := [] }

def c2_graph : LineageGraph := LineageBuilder.build [c2_model_a, c2_model_b] [] [] []

/-- The model-to-model edge the builder emits for `a`'s ref to `b`. -/
def c2_edge : LineageEdge :=
  { id := mkId 2, source := mkId 0, target := mkId 1,
    edge_type := LineageEdgeType.ModelToModel, label := some "ref" }

def c3_model_a : DbtModel := c2_model_a

def c3_model_b : DbtModel := c2_model_b

/-- Two models, `a` referencing `b`, no semantic layer at all. -/
def c3_graph : LineageGraph := LineageBuilder.build [c3_model_a, c3_model_b] [] [] []

/-- A single node whose description is present but empty. -/
def c4_graph : LineageGraph :=
  { nodes := [{ id := "n1", node_type := LineageNodeType.Model, name := "m",
                description := some "" }],
    edges := [] }

/-- The spec scenario: source `raw.orders`, model `stg_orders` reading
it, one semantic model with primary entity `order_id` and measure
`total_amount`, one simple metric `revenue` on that measure. -/
def c5_source : DbtSource :=
  { unique_id := "source.raw.orders", source_name := "raw", name := "orders",
    schema := none, database := none, description := none, columns := [],
    loader := none, freshness := none, tags := [] }

def c5_model : DbtModel :=
  { unique_id := "model.stg_orders", name := "stg_orders", schema := none,
    database := none, description := none, columns := [], depends_on := [],
    refs := [], sources := [{ source_name := "raw", table_name := "orders" }],
    file_path := "models/stg_orders.sql", raw_sql := none,
    materialization := none, tags := [] }

def c5_sm : SemanticModel :=
  { name := "orders", description := none, model := "stg_orders", defaults := none,
    entities := [{ name := "order_id", entity_type := "primary", expr := none,
                   description := none }],
    measures := [{ name := "total_amount", agg := "sum", expr := none,
                   description := none, create_metric := none,
                   non_additive_dimension := none }],
    dimensions := [] }

def c5_metric : Metric :=
  { name := "revenue", description := none, metric_type := "simple",
    type_params := { measure := some { name := "total_amount", filter := none,
                                       alias_ := none },
                     expr := none, metrics := none, window := none,
                     grain_to_date := none },
    filter := none, label := none }

def c5_graph : LineageGraph :=
  LineageBuilder.build [c5_model] [c5_source] [c5_sm] [c5_metric]

/-- A parse result with one metric node wired to one source node. -/
def c7_pr : ParseResult :=
  { ParseResult.default with
    lineage := { nodes := [{ id := "a", node_type := LineageNodeType.Metric,
                             name := "m", description := none },
                           { id := "s", node_type := LineageNodeType.Source,
                             name := "src", description := none }],
                 edges := [{ id := "e1", source := "a", target := "s",
                             edge_type := LineageEdgeType.MetricToMeasure,
                             label := none }] } }

def c7_node : LineageNode :=
  { id := "a", node_type := LineageNodeType.Metric, name := "m", description := none }

/-- Two Metric nodes with the same name and distinct ids, in the two
opposite list orders. -/
def c8_pr1 : ParseResult :=
  { ParseResult.default with
    lineage := { nodes := [{ id := "a", node_type := LineageNodeType.Metric,
                             name := "m", description := none },
                           { id := "b", node_type := LineageNodeType.Metric,
                             name := "m", description := none }],
                 edges := [] } }

def c8_pr2 : ParseResult :=
  { ParseResult.default with
    lineage := { nodes := [{ id := "b", node_type := LineageNodeType.Metric,
                             name := "m", description := none },
                           { id := "a", node_type := LineageNodeType.Metric,
                             name := "m", description := none }],
                 edges := [] } }

/-- Permuted copies of a lineage with a uniquely named metric. -/
def c8_prw1 : ParseResult := c7_pr

def c8_prw2 : ParseResult :=
  { ParseResult.default with
    lineage := { nodes := [{ id := "s", node_type := LineageNodeType.Source,
                             name := "src", description := none },
                           { id := "a", node_type := LineageNodeType.Metric,
                             name := "m", description := none }],
                 edges := [{ id := "e1", source := "a", target := "s",
                             edge_type := LineageEdgeType.MetricToMeasure,
                             label := none }] } }

def c9_metric : Metric := c1_metric

def c9_graph : LineageGraph := { nodes := [], edges := [] }

def c10_pr : ParseResult :=
  { ParseResult.default with
    lineage := { nodes := [{ id := "a", node_type := LineageNodeType.Metric,
                             name := "m", description := none }],
                 edges := [] } }

/-- The filtered result both queries return on `c10_pr` for name `m`. -/
def c10_expected : ParseResult :=
  { ParseResult.default with
    success := true
    lineage := { nodes := [{ id := "a", node_type := LineageNodeType.Metric,
                             name := "m", description := none }],
                 edges := [] } }

theorem lookupId_ok {st : BuilderState} (h : NodeIdsOk st) {k v : String}
    (hl : lookupId st.node_ids k = some v) : ∃ n ∈ st.nodes, n.id = v := by
  unfold lookupId at hl
  cases hfind : st.node_ids.find? (fun p => decide (p.1 = k)) with
  | none => rw [hfind] at hl; simp at hl
  | some p =>
    rw [hfind] at hl
    simp only [Option.map_some'] at hl
    cases hl
    exact h p (List.mem_of_find?_eq_some hfind)

theorem stInv_push_node {st : BuilderState} (h : StInv st) (node : LineageNode)
    (key : String) (k : Nat) :
    StInv { nodes := st.nodes ++ [node], edges := st.edges,
            node_ids := (key, node.id) :: st.node_ids, fresh := k } := by
  obtain ⟨hids, hedges⟩ := h
  constructor
  · intro kv hkv
    rcases List.mem_cons.mp hkv with hkv | hkv
    · subst hkv; exact ⟨node, by simp, rfl⟩
    · obtain ⟨n, hn, hid⟩ := hids kv hkv
      exact ⟨n, by simp [hn], hid⟩
  · intro e he
    obtain ⟨⟨n1, hn1, h1⟩, n2, hn2, h2⟩ := hedges e he
    exact ⟨⟨n1, by simp [hn1], h1⟩, n2, by simp [hn2], h2⟩

theorem stInv_push_edge {st : BuilderState} (h : StInv st) (e : LineageEdge) (k : Nat)
    (hs : ∃ n ∈ st.nodes, n.id = e.source) (ht : ∃ n ∈ st.nodes, n.id = e.target) :
    StInv { nodes := st.nodes, edges := st.edges ++ [e],
            node_ids := st.node_ids, fresh := k } := by
  obtain ⟨hids, hedges⟩ := h
  refine ⟨fun kv hkv => hids kv hkv, fun e' he' => ?_⟩
  rcases List.mem_append.mp he' with he' | he'
  · exact hedges e' he'
  · rw [List.mem_singleton] at he'; subst he'; exact ⟨hs, ht⟩

theorem foldl_inv {α β : Type} {P : β → Prop} {f : β → α → β}
    (hf : ∀ s a, P s → P (f s a)) : ∀ (l : List α) (s : β), P s → P (l.foldl f s) := by
  intro l
  induction l with
  | nil => exact fun _ hs => hs
  | cons a t ih => exact fun s hs => ih _ (hf s a hs)

theorem add_source_node_inv {st : BuilderState} (h : StInv st) (source : DbtSource) :
    StInv (LineageBuilder.add_source_node st source) :=
  stInv_push_node h _ _ _

theorem add_model_node_inv {st : BuilderState} (h : StInv st) (model : DbtModel) :
    StInv (LineageBuilder.add_model_node st model) :=
  stInv_push_node h _ _ _

theorem add_metric_node_inv {st : BuilderState} (h : StInv st) (metric : Metric) :
    StInv (LineageBuilder.add_metric_node st metric) :=
  stInv_push_node h _ _ _

/-- Edge-appending loop bodies preserve the invariant together with the
fact that the node vector is untouched, provided the edge's source id is
resolvable in the untouched node vector. -/
theorem add_ref_edge_inv {st0 : BuilderState} {model_id : String}
    (hm : ∃ n ∈ st0.nodes, n.id = model_id) (s : BuilderState) (ref_name : String)
    (hs : StInv s ∧ s.nodes = st0.nodes) :
    StInv (LineageBuilder.add_ref_edge model_id s ref_name) ∧
      (LineageBuilder.add_ref_edge model_id s ref_name).nodes = st0.nodes := by
  unfold LineageBuilder.add_ref_edge
  split
  · next ref_id hlk =>
    refine ⟨stInv_push_edge hs.1 _ _ ?_ (lookupId_ok hs.1.1 hlk), hs.2⟩
    rw [hs.2]; exact hm
  · exact hs

theorem add_source_ref_edge_inv {st0 : BuilderState} {model_id : String}
    (hm : ∃ n ∈ st0.nodes, n.id = model_id) (s : BuilderState)
    (source_ref : DbtSourceRef) (hs : StInv s ∧ s.nodes = st0.nodes) :
    StInv (LineageBuilder.add_source_ref_edge model_id s source_ref) ∧
      (LineageBuilder.add_source_ref_edge model_id s source_ref).nodes = st0.nodes := by
  unfold LineageBuilder.add_source_ref_edge
  split
  · next source_id hlk =>
    refine ⟨stInv_push_edge hs.1 _ _ ?_ (lookupId_ok hs.1.1 hlk), hs.2⟩
    rw [hs.2]; exact hm
  · exact hs

theorem add_derived_ref_edge_inv {st0 : BuilderState} {metric_id : String}
    (hm : ∃ n ∈ st0.nodes, n.id = metric_id) (s : BuilderState)
    (metric_ref : MetricRef) (hs : StInv s ∧ s.nodes = st0.nodes) :
    StInv (LineageBuilder.add_derived_ref_edge metric_id s metric_ref) ∧
      (LineageBuilder.add_derived_ref_edge metric_id s metric_ref).nodes = st0.nodes := by
  unfold LineageBuilder.add_derived_ref_edge
  split
  · next ref_id hlk =>
    refine ⟨stInv_push_edge hs.1 _ _ ?_ (lookupId_ok hs.1.1 hlk), hs.2⟩
    rw [hs.2]; exact hm
  · exact hs

theorem add_model_edges_inv {st : BuilderState} (h : StInv st) (model : DbtModel) :
    StInv (LineageBuilder.add_model_edges st model) := by
  unfold LineageBuilder.add_model_edges
  split
  · exact h
  · next model_id heq =>
    have hm : ∃ n ∈ st.nodes, n.id = model_id := lookupId_ok h.1 heq
    exact (foldl_inv (add_source_ref_edge_inv hm) _ _
      (foldl_inv (add_ref_edge_inv hm) _ _ ⟨h, rfl⟩)).1

theorem add_entity_node_inv (sm : SemanticModel) {st : BuilderState} (h : StInv st)
    (entity : SemanticEntity) : StInv (LineageBuilder.add_entity_node sm st entity) := by
  simp only [LineageBuilder.add_entity_node]
  have h1 := stInv_push_node h
    { id := mkId st.fresh, node_type := LineageNodeType.Entity,
      name := entity.name, description := entity.description }
    ("entity." ++ sm.name ++ "." ++ entity.name) (st.fresh + 1)
  split
  · next model_id hlk =>
    refine stInv_push_edge h1 _ _ ?_ (lookupId_ok h1.1 hlk)
    exact ⟨{ id := mkId st.fresh, node_type := LineageNodeType.Entity,
              name := entity.name, description := entity.description }, by simp, rfl⟩
  · exact h1

theorem add_measure_node_inv (sm : SemanticModel) {st : BuilderState} (h : StInv st)
    (measure : Measure) : StInv (LineageBuilder.add_measure_node sm st measure) := by
  simp only [LineageBuilder.add_measure_node]
  have h1 := stInv_push_node h
    { id := mkId st.fresh, node_type := LineageNodeType.Measure,
      name := measure.name, description := measure.description }
    ("measure." ++ sm.name ++ "." ++ measure.name) (st.fresh + 1)
  split
  · next entity _ =>
    split
    · next entity_id hlk =>
      refine stInv_push_edge h1 _ _ ?_ (lookupId_ok h1.1 hlk)
      exact ⟨{ id := mkId st.fresh, node_type := LineageNodeType.Measure,
                name := measure.name, description := measure.description }, by simp, rfl⟩
    · exact h1
  · exact h1

theorem add_dimension_node_inv (sm : SemanticModel) {st : BuilderState} (h : StInv st)
    (dim : Dimension) : StInv (LineageBuilder.add_dimension_node sm st dim) := by
  simp only [LineageBuilder.add_dimension_node]
  have h1 := stInv_push_node h
    { id := mkId st.fresh, node_type := LineageNodeType.Dimension,
      name := dim.name, description := dim.description }
    ("dimension." ++ sm.name ++ "." ++ dim.name) (st.fresh + 1)
  split
  · next entity _ =>
    split
    · next entity_id hlk =>
      refine stInv_push_edge h1 _ _ ?_ (lookupId_ok h1.1 hlk)
      exact ⟨{ id := mkId st.fresh, node_type := LineageNodeType.Dimension,
                name := dim.name, description := dim.description }, by simp, rfl⟩
    · exact h1
  · exact h1

theorem add_semantic_model_nodes_inv {st : BuilderState} (h : StInv st)
    (sm : SemanticModel) : StInv (LineageBuilder.add_semantic_model_nodes st sm) := by
  unfold LineageBuilder.add_semantic_model_nodes
  have h1 := foldl_inv (P := StInv) (fun _ e hs => add_entity_node_inv sm hs e)
    sm.entities st h
  have h2 := foldl_inv (P := StInv) (fun _ m hs => add_measure_node_inv sm hs m)
    sm.measures _ h1
  exact foldl_inv (P := StInv) (fun _ d hs => add_dimension_node_inv sm hs d)
    sm.dimensions _ h2

theorem find_measure_id_ok {st : BuilderState} (h : NodeIdsOk st)
    {sms : List SemanticModel} {name v : String}
    (hl : LineageBuilder.find_measure_id st.node_ids sms name = some v) :
    ∃ n ∈ st.nodes, n.id = v := by
  induction sms with
  | nil => simp [LineageBuilder.find_measure_id] at hl
  | cons sm rest ih =>
    unfold LineageBuilder.find_measure_id at hl
    cases hlk : lookupId st.node_ids ("measure." ++ sm.name ++ "." ++ name) with
    | some i => rw [hlk] at hl; cases hl; exact lookupId_ok h hlk
    | none => rw [hlk] at hl; exact ih hl

theorem add_metric_edges_inv {st : BuilderState} (h : StInv st) (metric : Metric)
    (semantic_models : List SemanticModel) :
    StInv (LineageBuilder.add_metric_edges st metric semantic_models) := by
  unfold LineageBuilder.add_metric_edges
  split
  · exact h
  · next metric_id heq =>
    have hm : ∃ n ∈ st.nodes, n.id = metric_id := lookupId_ok h.1 heq
    split
    · split
      · split
        · next measure_id hfk =>
          exact stInv_push_edge h _ _ hm (find_measure_id_ok h.1 hfk)
        · exact h
      · exact h
    · split
      · split
        · next metric_refs _ =>
          exact (foldl_inv (add_derived_ref_edge_inv hm) _ _ ⟨h, rfl⟩).1
        · exact h
      · exact h

theorem build_stinv (models : List DbtModel) (sources : List DbtSource)
    (semantic_models : List SemanticModel) (metrics : List Metric) :
    StInv (metrics.foldl (fun s m => LineageBuilder.add_metric_edges s m semantic_models)
      (metrics.foldl LineageBuilder.add_metric_node
        (semantic_models.foldl LineageBuilder.add_semantic_model_nodes
          (models.foldl LineageBuilder.add_model_edges
            (models.foldl LineageBuilder.add_model_node
              (sources.foldl LineageBuilder.add_source_node
                { nodes := [], edges := [], node_ids := [], fresh := 0 })))))) := by
  have hinit : StInv { nodes := [], edges := [], node_ids := [], fresh := 0 } := by
    exact ⟨fun kv hkv => absurd hkv (List.not_mem_nil kv),
           fun e he => absurd he (List.not_mem_nil e)⟩
  have h1 := foldl_inv (P := StInv) (fun _ so hs => add_source_node_inv hs so)
    sources _ hinit
  have h2 := foldl_inv (P := StInv) (fun _ m hs => add_model_node_inv hs m) models _ h1
  have h3 := foldl_inv (P := StInv) (fun _ m hs => add_model_edges_inv hs m) models _ h2
  have h4 := foldl_inv (P := StInv) (fun _ sm hs => add_semantic_model_nodes_inv hs sm)
    semantic_models _ h3
  have h5 := foldl_inv (P := StInv) (fun _ m hs => add_metric_node_inv hs m) metrics _ h4
  exact foldl_inv (P := StInv) (fun _ m hs => add_metric_edges_inv hs m semantic_models)
    metrics _ h5

/-! ## Traversal correctness

The worklist loop computes exactly the set of ids reachable from the
seed through the step relation induced by the edge list.  `traverse_main`
is the completeness half (given enough fuel the loop empties its queue,
every queued id lands in the result, and the result is closed under
steps); `traverse_sound` is the soundness half. -/

theorem length_filter_le_mono {α : Type} (l : List α) (p q : α → Bool)
    (h : ∀ x, q x = true → p x = true) :
    (l.filter q).length ≤ (l.filter p).length := by
  induction l with
  | nil => simp
  | cons a t ih =>
    cases hq : q a with
    | true =>
      have hp := h a hq
      simp only [List.filter_cons, hq, hp, if_true, List.length_cons]
      omega
    | false =>
      cases hp : p a with
      | true =>
        simp only [List.filter_cons, hq, hp, if_true, Bool.false_eq_true, if_false,
          List.length_cons]
        omega
      | false =>
        simp only [List.filter_cons, hq, hp, Bool.false_eq_true, if_false]
        exact ih

theorem length_filter_lt_of_mem {α : Type} {l : List α} {p q : α → Bool}
    (h : ∀ x, q x = true → p x = true) {c : α} (hc : c ∈ l)
    (hp : p c = true) (hq : q c = false) :
    (l.filter q).length < (l.filter p).length := by
  induction l with
  | nil => cases hc
  | cons a t ih =>
    rcases List.mem_cons.mp hc with rfl | hmem
    · have hle := length_filter_le_mono t p q h
      simp only [List.filter_cons, hp, hq, if_true, Bool.false_eq_true, if_false,
        List.length_cons]
      omega
    · cases hqa : q a with
      | true =>
        have hpa := h a hqa
        simp only [List.filter_cons, hqa, hpa, if_true, List.length_cons]
        have := ih hmem
        omega
      | false =>
        cases hpa : p a with
        | true =>
          simp only [List.filter_cons, hqa, hpa, if_true, Bool.false_eq_true, if_false,
            List.length_cons]
          have := ih hmem
          omega
        | false =>
          simp only [List.filter_cons, hqa, hpa, Bool.false_eq_true, if_false]
          exact ih hmem

theorem traverseF_skip (edges : List LineageEdge) (sel : LineageEdge → String × String)
    (f : Nat) (c : String) (rest visited : List String) (hc : c ∈ visited) :
    traverseF edges sel (f + 1) (c :: rest) visited =
      traverseF edges sel f rest visited := by
  simp only [traverseF, if_pos hc]

theorem traverseF_push (edges : List LineageEdge) (sel : LineageEdge → String × String)
    (f : Nat) (c : String) (rest visited : List String) (hc : c ∉ visited) :
    traverseF edges sel (f + 1) (c :: rest) visited =
      traverseF edges sel f
        (((edges.filter (fun e => decide ((sel e).1 = c ∧ (sel e).2 ∉ c :: visited))).map
          (fun e => (sel e).2)).reverse ++ rest) (c :: visited) := by
  simp only [traverseF, if_neg hc]

theorem traverse_main (edges : List LineageEdge) (sel : LineageEdge → String × String)
    (univ : List String) (hU : ∀ e ∈ edges, (sel e).2 ∈ univ) :
    ∀ (fuel : Nat) (queue visited : List String),
      queue.length +
        (univ.filter (fun u => decide (u ∉ visited))).length * (edges.length + 1) ≤ fuel →
      (∀ x ∈ queue, x ∈ univ) →
      (∀ v ∈ visited, ∀ b, EdgeStep edges sel v b → b ∈ visited ∨ b ∈ queue) →
      (∀ x ∈ queue, x ∈ traverseF edges sel fuel queue visited) ∧
      (∀ x ∈ visited, x ∈ traverseF edges sel fuel queue visited) ∧
      (∀ v ∈ traverseF edges sel fuel queue visited, ∀ b, EdgeStep edges sel v b →
        b ∈ traverseF edges sel fuel queue visited) := by
  intro fuel
  induction fuel with
  | zero =>
    intro queue visited hfuel hq hinv
    have hq0 : queue = [] := by
      cases queue with
      | nil => rfl
      | cons c rest => simp at hfuel
    subst hq0
    simp only [traverseF]
    refine ⟨by simp, fun x hx => hx, fun v hv b hstep => ?_⟩
    rcases hinv v hv b hstep with h | h
    · exact h
    · cases h
  | succ f ih =>
    intro queue visited hfuel hq hinv
    cases queue with
    | nil =>
      simp only [traverseF]
      refine ⟨by simp, fun x hx => hx, fun v hv b hstep => ?_⟩
      rcases hinv v hv b hstep with h | h
      · exact h
      · cases h
    | cons c rest =>
      by_cases hc : c ∈ visited
      · rw [traverseF_skip edges sel f c rest visited hc]
        have hrec := ih rest visited
          (by simp only [List.length_cons] at hfuel; omega)
          (fun x hx => hq x (List.mem_cons_of_mem c hx))
          (fun v hv b hstep => by
            rcases hinv v hv b hstep with h | h
            · exact Or.inl h
            · rcases List.mem_cons.mp h with rfl | h
              · exact Or.inl hc
              · exact Or.inr h)
        obtain ⟨A, B, C⟩ := hrec
        refine ⟨?_, B, C⟩
        intro x hx
        rcases List.mem_cons.mp hx with rfl | hx
        · exact B x hc
        · exact A x hx
      · rw [traverseF_push edges sel f c rest visited hc]
        have hcU : c ∈ univ := hq c (List.mem_cons_self c rest)
        have hRlt : (univ.filter (fun u => decide (u ∉ c :: visited))).length
            < (univ.filter (fun u => decide (u ∉ visited))).length := by
          refine length_filter_lt_of_mem ?_ hcU ?_ ?_
          · intro x hx
            simp only [decide_eq_true_eq] at hx ⊢
            intro hmem
            exact hx (List.mem_cons_of_mem c hmem)
          · simp [hc]
          · simp
        have hplen :
            ((edges.filter (fun e =>
              decide ((sel e).1 = c ∧ (sel e).2 ∉ c :: visited))).map
              (fun e => (sel e).2)).length ≤ edges.length := by
          rw [List.length_map]
          exact List.length_filter_le _ _
        have hfuel' :
            (((edges.filter (fun e =>
                decide ((sel e).1 = c ∧ (sel e).2 ∉ c :: visited))).map
                (fun e => (sel e).2)).reverse ++ rest).length +
              (univ.filter (fun u => decide (u ∉ c :: visited))).length *
                (edges.length + 1) ≤ f := by
          have hmul :
              ((univ.filter (fun u => decide (u ∉ c :: visited))).length + 1) *
                  (edges.length + 1)
                ≤ (univ.filter (fun u => decide (u ∉ visited))).length *
                  (edges.length + 1) :=
            Nat.mul_le_mul_right _ hRlt
          have hexp :
              ((univ.filter (fun u => decide (u ∉ c :: visited))).length + 1) *
                  (edges.length + 1)
                = (univ.filter (fun u => decide (u ∉ c :: visited))).length *
                    (edges.length + 1) + (edges.length + 1) := by
            ring
          rw [hexp] at hmul
          simp only [List.length_append, List.length_reverse, List.length_cons] at hfuel ⊢
          omega
        have hq' : ∀ x ∈ ((edges.filter (fun e =>
            decide ((sel e).1 = c ∧ (sel e).2 ∉ c :: visited))).map
            (fun e => (sel e).2)).reverse ++ rest, x ∈ univ := by
          intro x hx
          rcases List.mem_append.mp hx with hx | hx
          · rw [List.mem_reverse] at hx
            obtain ⟨e, he, hx⟩ := List.mem_map.mp hx
            exact hx ▸ hU e (List.mem_filter.mp he).1
          · exact hq x (List.mem_cons_of_mem c hx)
        have hinv' : ∀ v ∈ c :: visited, ∀ b, EdgeStep edges sel v b →
            b ∈ c :: visited ∨ b ∈ ((edges.filter (fun e =>
              decide ((sel e).1 = c ∧ (sel e).2 ∉ c :: visited))).map
              (fun e => (sel e).2)).reverse ++ rest := by
          intro v hv b hstep
          rcases List.mem_cons.mp hv with rfl | hv
          · obtain ⟨e, he, h1, h2⟩ := hstep
            by_cases hb : b ∈ v :: visited
            · exact Or.inl hb
            · refine Or.inr (List.mem_append.mpr (Or.inl ?_))
              rw [List.mem_reverse]
              refine List.mem_map.mpr ⟨e, List.mem_filter.mpr ⟨he, ?_⟩, h2⟩
              simp only [decide_eq_true_eq]
              exact ⟨h1, h2 ▸ hb⟩
          · rcases hinv v hv b hstep with h | h
            · exact Or.inl (List.mem_cons_of_mem c h)
            · rcases List.mem_cons.mp h with rfl | h
              · exact Or.inl (List.mem_cons_self b visited)
              · exact Or.inr (List.mem_append.mpr (Or.inr h))
        obtain ⟨A, B, C⟩ := ih _ _ hfuel' hq' hinv'
        refine ⟨?_, fun x hx => B x (List.mem_cons_of_mem c hx), C⟩
        intro x hx
        rcases List.mem_cons.mp hx with rfl | hx
        · exact B x (List.mem_cons_self x visited)
        · exact A x (List.mem_append.mpr (Or.inr hx))

theorem traverse_sound (edges : List LineageEdge) (sel : LineageEdge → String × String)
    (P : String → Prop) (hstep : ∀ a b, P a → EdgeStep edges sel a b → P b) :
    ∀ (fuel : Nat) (queue visited : List String),
      (∀ x ∈ queue, P x) → (∀ x ∈ visited, P x) →
      ∀ x ∈ traverseF edges sel fuel queue visited, P x := by
  intro fuel
  induction fuel with
  | zero =>
    intro queue visited _ hv
    simp only [traverseF]
    exact hv
  | succ f ih =>
    intro queue visited hq hv
    cases queue with
    | nil =>
      simp only [traverseF]
      exact hv
    | cons c rest =>
      by_cases hc : c ∈ visited
      · rw [traverseF_skip edges sel f c rest visited hc]
        exact ih rest visited (fun x hx => hq x (List.mem_cons_of_mem c hx)) hv
      · rw [traverseF_push edges sel f c rest visited hc]
        apply ih
        · intro x hx
          rcases List.mem_append.mp hx with hx | hx
          · rw [List.mem_reverse] at hx
            obtain ⟨e, he, hx⟩ := List.mem_map.mp hx
            obtain ⟨hee, hef⟩ := List.mem_filter.mp he
            simp only [decide_eq_true_eq] at hef
            exact hstep c x (hq c (List.mem_cons_self c rest)) ⟨e, hee, hef.1, hx⟩
          · exact hq x (List.mem_cons_of_mem c hx)
        · intro x hx
          rcases List.mem_cons.mp hx with rfl | hx
          · exact hq x (List.mem_cons_self x rest)
          · exact hv x hx

theorem visited_subset_traverseF (edges : List LineageEdge)
    (sel : LineageEdge → String × String) :
    ∀ (fuel : Nat) (queue visited : List String),
      ∀ x ∈ visited, x ∈ traverseF edges sel fuel queue visited := by
  intro fuel
  induction fuel with
  | zero =>
    intro queue visited x hx
    simp only [traverseF]
    exact hx
  | succ f ih =>
    intro queue visited x hx
    cases queue with
    | nil =>
      simp only [traverseF]
      exact hx
    | cons c rest =>
      by_cases hc : c ∈ visited
      · rw [traverseF_skip edges sel f c rest visited hc]
        exact ih rest visited x hx
      · rw [traverseF_push edges sel f c rest visited hc]
        exact ih _ _ x (List.mem_cons_of_mem c hx)

/-- The traversal started from a single seed with the canonical fuel
computes exactly the ids reachable from the seed. -/
theorem mem_traverse_run (edges : List LineageEdge) (sel : LineageEdge → String × String)
    (start x : String) :
    x ∈ traverseF edges sel (bfsFuel edges) [start] [] ↔
      Relation.ReflTransGen (EdgeStep edges sel) start x := by
  constructor
  · intro hx
    refine traverse_sound edges sel (Relation.ReflTransGen (EdgeStep edges sel) start)
      (fun a b ha hab => Relation.ReflTransGen.tail ha hab) (bfsFuel edges) [start] []
      ?_ ?_ x hx
    · intro y hy
      rw [List.mem_singleton] at hy
      subst hy
      exact Relation.ReflTransGen.refl
    · intro y hy
      cases hy
  · intro hrtg
    have hU : ∀ e ∈ edges, (sel e).2 ∈ start :: edges.map (fun e => (sel e).2) := by
      intro e he
      exact List.mem_cons_of_mem _ (List.mem_map.mpr ⟨e, he, rfl⟩)
    have hfilter : (start :: edges.map (fun e => (sel e).2)).filter
        (fun u => decide (u ∉ ([] : List String)))
        = start :: edges.map (fun e => (sel e).2) :=
      List.filter_eq_self.mpr (fun a _ => by simp)
    have hmain := traverse_main edges sel (start :: edges.map (fun e => (sel e).2)) hU
      (bfsFuel edges) [start] []
      (by
        rw [hfilter]
        simp only [List.length_cons, List.length_map, List.length_nil, bfsFuel]
        have hsq : (edges.length + 2) * (edges.length + 2)
            = (edges.length + 1) * (edges.length + 1) + (2 * edges.length + 3) := by
          ring
        omega)
      (by
        intro y hy
        rw [List.mem_singleton] at hy
        subst hy
        exact List.mem_cons_self _ _)
      (by
        intro v hv
        cases hv)
    obtain ⟨A, B, C⟩ := hmain
    induction hrtg with
    | refl => exact A start (List.mem_singleton_self start)
    | tail hab hbc ihr => exact C _ ihr _ hbc

/-! ## The `has_complete_lineage` loop agrees with the plain traversal -/

theorem hcl_loop_eq_any (graph : LineageGraph) :
    ∀ (fuel : Nat) (queue visited : List String),
      (∀ v ∈ visited, LineageAnalyzer.isSourceId graph v = false) →
      LineageAnalyzer.has_complete_lineage_loop graph fuel queue visited =
        (traverseF graph.edges forwardSel fuel queue visited).any
          (LineageAnalyzer.isSourceId graph) := by
  intro fuel
  induction fuel with
  | zero =>
    intro queue visited hvis
    simp only [LineageAnalyzer.has_complete_lineage_loop, traverseF]
    exact (List.any_eq_false.mpr (fun x hx => by simp [hvis x hx])).symm
  | succ f ih =>
    intro queue visited hvis
    cases queue with
    | nil =>
      simp only [LineageAnalyzer.has_complete_lineage_loop, traverseF]
      exact (List.any_eq_false.mpr (fun x hx => by simp [hvis x hx])).symm
    | cons c rest =>
      by_cases hc : c ∈ visited
      · have hL : LineageAnalyzer.has_complete_lineage_loop graph (f + 1) (c :: rest) visited
            = LineageAnalyzer.has_complete_lineage_loop graph f rest visited := by
          simp only [LineageAnalyzer.has_complete_lineage_loop, if_pos hc]
        rw [hL, traverseF_skip graph.edges forwardSel f c rest visited hc]
        exact ih rest visited hvis
      · by_cases hsrc : LineageAnalyzer.isSourceId graph c = true
        · have hL : LineageAnalyzer.has_complete_lineage_loop graph (f + 1) (c :: rest) visited
              = true := by
            simp only [LineageAnalyzer.has_complete_lineage_loop, if_neg hc, hsrc, if_true]
          rw [hL, traverseF_push graph.edges forwardSel f c rest visited hc]
          exact (List.any_eq_true.mpr ⟨c,
            visited_subset_traverseF graph.edges forwardSel f _ _ c
              (List.mem_cons_self c visited), hsrc⟩).symm
        · have hsrc' : LineageAnalyzer.isSourceId graph c = false := by
            revert hsrc
            cases LineageAnalyzer.isSourceId graph c <;> simp
          have hL : LineageAnalyzer.has_complete_lineage_loop graph (f + 1) (c :: rest) visited
              = LineageAnalyzer.has_complete_lineage_loop graph f
                  (((graph.edges.filter (fun e =>
                    decide ((forwardSel e).1 = c ∧ (forwardSel e).2 ∉ c :: visited))).map
                    (fun e => (forwardSel e).2)).reverse ++ rest) (c :: visited) := by
            simp only [LineageAnalyzer.has_complete_lineage_loop, if_neg hc, hsrc',
              Bool.false_eq_true, if_false]
          rw [hL, traverseF_push graph.edges forwardSel f c rest visited hc]
          refine ih _ _ ?_
          intro v hv
          rcases List.mem_cons.mp hv with rfl | hv
          · exact hsrc'
          · exact hvis v hv

theorem isSourceId_iff_of_nodup {graph : LineageGraph}
    (hids : (graph.nodes.map LineageNode.id).Nodup) (c : String) :
    LineageAnalyzer.isSourceId graph c = true ↔
      ∃ m ∈ graph.nodes, m.node_type = LineageNodeType.Source ∧ m.id = c := by
  unfold LineageAnalyzer.isSourceId
  constructor
  · intro h
    cases hfind : graph.nodes.find? (fun n => decide (n.id = c)) with
    | none =>
      rw [hfind] at h
      simp [Option.any] at h
    | some n =>
      rw [hfind] at h
      simp only [Option.any, decide_eq_true_eq] at h
      have hn := List.mem_of_find?_eq_some hfind
      have hnc : n.id = c := by simpa using List.find?_some hfind
      exact ⟨n, hn, h, hnc⟩
  · rintro ⟨m, hm, hsrc, rfl⟩
    cases hfind : graph.nodes.find? (fun n => decide (n.id = m.id)) with
    | none =>
      rw [List.find?_eq_none] at hfind
      have := hfind m hm
      simp at this
    | some n =>
      have hn := List.mem_of_find?_eq_some hfind
      have hnc : n.id = m.id := by simpa using List.find?_some hfind
      have hnm : n = m := List.inj_on_of_nodup_map hids hn hm hnc
      simp [Option.any, hnm, hsrc]

theorem has_complete_lineage_iff {graph : LineageGraph}
    (hids : (graph.nodes.map LineageNode.id).Nodup) (start : String) :
    LineageAnalyzer.has_complete_lineage graph start = true ↔ reachesSource graph start := by
  unfold LineageAnalyzer.has_complete_lineage
  rw [hcl_loop_eq_any graph (bfsFuel graph.edges) [start] []
    (fun v hv => absurd hv (List.not_mem_nil v))]
  rw [List.any_eq_true]
  constructor
  · rintro ⟨c, hcmem, hcsrc⟩
    rw [mem_traverse_run] at hcmem
    obtain ⟨m, hm, hsrc, hmc⟩ := (isSourceId_iff_of_nodup hids c).mp hcsrc
    exact ⟨m, hm, hsrc, hmc ▸ hcmem⟩
  · rintro ⟨m, hm, hsrc, hrtg⟩
    exact ⟨m.id, (mem_traverse_run _ _ _ _).mpr hrtg,
      (isSourceId_iff_of_nodup hids m.id).mpr ⟨m, hm, hsrc, rfl⟩⟩

/-! ## Check characterizations -/

/-- Membership in `referenced_model_names` coincides, for graphs with
distinct node ids, with the existence of an edge targeting a Model node
of that name. -/
theorem mem_referenced_model_names_iff {graph : LineageGraph}
    (hids : (graph.nodes.map LineageNode.id).Nodup) (name : String) :
    name ∈ LineageAnalyzer.referenced_model_names graph ↔
      ∃ e ∈ graph.edges, ∃ n ∈ graph.nodes,
        n.id = e.target ∧ n.node_type = LineageNodeType.Model ∧ n.name = name := by
  unfold LineageAnalyzer.referenced_model_names
  rw [List.mem_filterMap]
  constructor
  · rintro ⟨e, he, hfe⟩
    cases hfind : graph.nodes.find? (fun n =>
        decide (n.id = e.target ∧ n.node_type = LineageNodeType.Model)) with
    | none => rw [hfind] at hfe; simp at hfe
    | some n =>
      rw [hfind] at hfe
      simp only [Option.map_some'] at hfe
      cases hfe
      have hn := List.mem_of_find?_eq_some hfind
      have hpred := List.find?_some hfind
      simp only [decide_eq_true_eq] at hpred
      exact ⟨e, he, n, hn, hpred.1, hpred.2, rfl⟩
  · rintro ⟨e, he, n, hn, hid, htype, hname⟩
    refine ⟨e, he, ?_⟩
    cases hfind : graph.nodes.find? (fun n =>
        decide (n.id = e.target ∧ n.node_type = LineageNodeType.Model)) with
    | none =>
      rw [List.find?_eq_none] at hfind
      have := hfind n hn
      simp [hid, htype] at this
    | some n' =>
      have hn' := List.mem_of_find?_eq_some hfind
      have hpred := List.find?_some hfind
      simp only [decide_eq_true_eq] at hpred
      have hnn : n' = n := List.inj_on_of_nodup_map hids hn' hn (by rw [hpred.1, hid])
      simp [hnn, hname]

/-- A metric node's id is in `connected_metric_ids` exactly when some
edge leaves it. -/
theorem mem_connected_metric_ids_iff {graph : LineageGraph} {n : LineageNode}
    (hn : n ∈ graph.nodes) (htype : n.node_type = LineageNodeType.Metric) :
    n.id ∈ LineageAnalyzer.connected_metric_ids graph ↔
      ∃ e ∈ graph.edges, e.source = n.id := by
  unfold LineageAnalyzer.connected_metric_ids
  rw [List.mem_map]
  constructor
  · rintro ⟨e, he, hsrc⟩
    exact ⟨e, (List.mem_filter.mp he).1, hsrc⟩
  · rintro ⟨e, he, hsrc⟩
    refine ⟨e, List.mem_filter.mpr ⟨he, ?_⟩, hsrc⟩
    simp only [decide_eq_true_eq, hsrc]
    unfold LineageAnalyzer.metric_node_ids
    exact List.mem_map.mpr ⟨n, List.mem_filter.mpr ⟨hn, by simp [htype]⟩, rfl⟩

/-- The node ids of a filtered query result are the ids of the input
nodes reachable from the seed. -/
theorem mem_result_node_ids_iff (nodes : List LineageNode) (edges : List LineageEdge)
    (start x : String) :
    x ∈ (nodes.filter (fun n =>
        decide (n.id ∈ traverseF edges forwardSel (bfsFuel edges) [start] []))).map
        LineageNode.id ↔
      (∃ nd ∈ nodes, nd.id = x) ∧
        Relation.ReflTransGen (EdgeStep edges forwardSel) start x := by
  rw [List.mem_map]
  constructor
  · rintro ⟨nd, hnd, rfl⟩
    obtain ⟨h1, h2⟩ := List.mem_filter.mp hnd
    simp only [decide_eq_true_eq] at h2
    exact ⟨⟨nd, h1, rfl⟩, (mem_traverse_run _ _ _ _).mp h2⟩
  · rintro ⟨⟨nd, hnd, rfl⟩, hrtg⟩
    refine ⟨nd, List.mem_filter.mpr ⟨hnd, ?_⟩, rfl⟩
    simp only [decide_eq_true_eq]
    exact (mem_traverse_run _ _ _ _).mpr hrtg

/-- `EdgeStep` only depends on the edge list through membership. -/
theorem edgeStep_of_perm {edges edges' : List LineageEdge} (h : edges.Perm edges')
    (sel : LineageEdge → String × String) {a b : String}
    (hs : EdgeStep edges sel a b) : EdgeStep edges' sel a b := by
  obtain ⟨e, he, hp⟩ := hs
  exact ⟨e, h.mem_iff.mp he, hp⟩

theorem rtg_edgeStep_of_perm {edges edges' : List LineageEdge} (h : edges.Perm edges')
    (sel : LineageEdge → String × String) {a b : String}
    (hr : Relation.ReflTransGen (EdgeStep edges sel) a b) :
    Relation.ReflTransGen (EdgeStep edges' sel) a b :=
  Relation.ReflTransGen.mono (fun _ _ hs => edgeStep_of_perm h sel hs) hr

/-! ## Claims -/

/-- C2: for every graph produced by `LineageBuilder.build`, every edge's
source id and target id are ids of nodes of the same graph — no dangling
edges, ever. -/
theorem c2_build_no_dangling_edges (models : List DbtModel) (sources : List DbtSource)
    (semantic_models : List SemanticModel) (metrics : List Metric) :
    ∀ e ∈ (LineageBuilder.build models sources semantic_models metrics).edges,
      (∃ n ∈ (LineageBuilder.build models sources semantic_models metrics).nodes,
        n.id = e.source) ∧
      (∃ n ∈ (LineageBuilder.build models sources semantic_models metrics).nodes,
        n.id = e.target) := by
  intro e he
  exact (build_stinv models sources semantic_models metrics).2 e he

/-- C2 witness: the ref edge of a two-model build has both endpoints
among the built nodes. -/
theorem c2_witness :
    c2_edge ∈ (LineageBuilder.build [c2_model_a, c2_model_b] [] [] []).edges ∧
      ((∃ n ∈ (LineageBuilder.build [c2_model_a, c2_model_b] [] [] []).nodes,
        n.id = c2_edge.source) ∧
      (∃ n ∈ (LineageBuilder.build [c2_model_a, c2_model_b] [] [] []).nodes,
        n.id = c2_edge.target)) :=
  ⟨by decide, c2_build_no_dangling_edges [c2_model_a, c2_model_b] [] [] [] c2_edge
    (by decide)⟩

/-- C4 counterexample: a node whose description is present but empty is
counted as documented — the code reports 100 percent coverage on a
one-node graph with an empty-string description, while the claim
(counting only non-empty descriptions) demands 0 percent. -/
theorem c4_counterexample :
    LineageAnalyzer.calculate_documentation_coverage c4_graph = FVal.val 100 ∧
    (c4_graph.nodes.filter (fun n =>
      match n.description with
      | some d => !d.isEmpty
      | none => false)).length = 0 ∧
    c4_graph.nodes.length = 1 := by
  refine ⟨?_, by decide, by decide⟩
  have hD : (c4_graph.nodes.filter (fun n => n.description.isSome)).length = 1 := by decide
  have hT : c4_graph.nodes.length = 1 := by decide
  show fmul100 (fdiv
    (((c4_graph.nodes.filter (fun n => n.description.isSome)).length : ℚ))
    ((c4_graph.nodes.length : ℚ))) = FVal.val 100
  rw [hD, hT]
  norm_num [fdiv, fmul100]

/-- C4 (amended): documentation coverage is 100 for an empty graph and
otherwise 100 times the fraction of nodes whose description is present
(a present-but-empty description counts as documented). -/
theorem c4_documentation_coverage (graph : LineageGraph) :
    (graph.nodes = [] →
      LineageAnalyzer.calculate_documentation_coverage graph = FVal.val 100) ∧
    (graph.nodes ≠ [] →
      LineageAnalyzer.calculate_documentation_coverage graph =
        FVal.val (100 *
          ((graph.nodes.filter (fun n => n.description.isSome)).length : ℚ) /
          (graph.nodes.length : ℚ))) := by
  constructor
  · intro h
    unfold LineageAnalyzer.calculate_documentation_coverage
    rw [h]
    rfl
  · intro h
    have hT : (graph.nodes.length : ℚ) ≠ 0 := by
      have hlen : graph.nodes.length ≠ 0 := by
        intro h0
        exact h (List.length_eq_zero.mp h0)
      exact_mod_cast hlen
    have hie : graph.nodes.isEmpty = false := by
      cases hn : graph.nodes with
      | nil => exact absurd hn h
      | cons a t => rfl
    unfold LineageAnalyzer.calculate_documentation_coverage
    rw [hie, if_neg Bool.false_ne_true]
    show fmul100 (fdiv
      (((graph.nodes.filter (fun n => n.description.isSome)).length : ℚ))
      ((graph.nodes.length : ℚ))) = _
    unfold fdiv
    rw [if_neg hT]
    show FVal.val _ = FVal.val _
    congr 1
    ring

/-- C4 witness: a nonempty graph instantiating the amended coverage
formula. -/
theorem c4_witness :
    c4_graph.nodes ≠ [] ∧
    LineageAnalyzer.calculate_documentation_coverage c4_graph =
      FVal.val (100 *
        ((c4_graph.nodes.filter (fun n => n.description.isSome)).length : ℚ) /
        (c4_graph.nodes.length : ℚ)) :=
  ⟨by decide, (c4_documentation_coverage c4_graph).2 (by decide)⟩

/-- C5 counterexample: the scenario build produces 4 edges
(model to source, entity to model, measure to entity, metric to
measure), not the 3 the claim states. -/
theorem c5_counterexample :
    c5_graph.edges.length = 4 ∧ ¬ c5_graph.edges.length = 3 := by
  constructor
  · decide
  · decide

/-- C5 (amended): the scenario yields 5 nodes and 4 edges, a
completeness score of 100.0, and no orphaned-metric issues. -/
theorem c5_scenario :
    c5_graph.nodes.length = 5 ∧
    c5_graph.edges.length = 4 ∧
    (LineageAnalyzer.analyze c5_graph [c5_model] [c5_source] [c5_sm]
      [c5_metric]).completeness_score = FVal.val 100 ∧
    ((LineageAnalyzer.analyze c5_graph [c5_model] [c5_source] [c5_sm]
      [c5_metric]).issues.filter (fun i =>
        decide (i.issue_type = IssueType.OrphanedMetric))).length = 0 := by
  refine ⟨by decide, by decide, ?_, by decide⟩
  have hC : ((c5_graph.nodes.filter (fun n =>
      decide (n.node_type = LineageNodeType.Metric))).filter
      (fun m => LineageAnalyzer.has_complete_lineage c5_graph m.id)).length = 1 := by
    decide
  have hT : (c5_graph.nodes.filter (fun n =>
      decide (n.node_type = LineageNodeType.Metric))).length = 1 := by decide
  show fmul100 (fdiv
    ((((c5_graph.nodes.filter (fun n =>
      decide (n.node_type = LineageNodeType.Metric))).filter
      (fun m => LineageAnalyzer.has_complete_lineage c5_graph m.id)).length : ℚ))
    (((c5_graph.nodes.filter (fun n =>
      decide (n.node_type = LineageNodeType.Metric))).length : ℚ))) = FVal.val 100
  rw [hC, hT]
  norm_num [fdiv, fmul100]

/-- C6: the orphaned-metric check emits exactly one issue per
Metric-typed node with no outgoing edge, and every such issue has Error
severity, the orphaned-metric kind, and carries that node's id. -/
theorem c6_orphaned_metrics_characterization (graph : LineageGraph)
    (metrics : List Metric) :
    LineageAnalyzer.check_orphaned_metrics graph metrics =
      (graph.nodes.filter (fun n => decide (n.node_type = LineageNodeType.Metric ∧
        ∀ e ∈ graph.edges, e.source ≠ n.id))).map LineageAnalyzer.orphanedMetricIssue ∧
    ∀ n : LineageNode,
      (LineageAnalyzer.orphanedMetricIssue n).severity = IssueSeverity.Error ∧
      (LineageAnalyzer.orphanedMetricIssue n).issue_type = IssueType.OrphanedMetric ∧
      (LineageAnalyzer.orphanedMetricIssue n).node_id = some n.id := by
  refine ⟨?_, fun n => ⟨rfl, rfl, rfl⟩⟩
  unfold LineageAnalyzer.check_orphaned_metrics
  congr 1
  apply List.filter_congr
  intro n hn
  simp only [decide_eq_decide]
  constructor
  · rintro ⟨htype, hnc⟩
    refine ⟨htype, fun e he hsrc => hnc ?_⟩
    exact (mem_connected_metric_ids_iff hn htype).mpr ⟨e, he, hsrc⟩
  · rintro ⟨htype, hall⟩
    refine ⟨htype, fun hmem => ?_⟩
    obtain ⟨e, he, hsrc⟩ := (mem_connected_metric_ids_iff hn htype).mp hmem
    exact hall e he hsrc

/-- C9: with a non-empty metric list but no Metric-typed node in the
graph, the completeness computation divides zero by zero and analyze
returns NaN. -/
theorem c9_completeness_nan (graph : LineageGraph) (models : List DbtModel)
    (sources : List DbtSource) (semantic_models : List SemanticModel)
    (metrics : List Metric) (hne : metrics ≠ [])
    (hnometric : ∀ n ∈ graph.nodes, n.node_type ≠ LineageNodeType.Metric) :
    (LineageAnalyzer.analyze graph models sources semantic_models
      metrics).completeness_score = FVal.nan := by
  obtain ⟨m, rest, rfl⟩ : ∃ m rest, metrics = m :: rest := by
    cases metrics with
    | nil => exact absurd rfl hne
    | cons m rest => exact ⟨m, rest, rfl⟩
  have hfilter : graph.nodes.filter
      (fun n => decide (n.node_type = LineageNodeType.Metric)) = [] := by
    rw [List.filter_eq_nil_iff]
    intro n hn
    simp only [decide_eq_true_eq]
    exact hnometric n hn
  show LineageAnalyzer.calculate_completeness_score graph (m :: rest) semantic_models
    = FVal.nan
  unfold LineageAnalyzer.calculate_completeness_score
  rw [hfilter]
  simp [fdiv, fmul100]

/-- C9 witness: one declared metric, empty graph. -/
theorem c9_witness :
    ([c9_metric] : List Metric) ≠ [] ∧
    (∀ n ∈ c9_graph.nodes, n.node_type ≠ LineageNodeType.Metric) ∧
    (LineageAnalyzer.analyze c9_graph [] [] [] [c9_metric]).completeness_score
      = FVal.nan :=
  ⟨by decide, by decide,
    c9_completeness_nan c9_graph [] [] [] [c9_metric] (by decide) (by decide)⟩

/-- C1 counterexample: called with a non-empty metric list on a graph
with no Metric node, analyze returns NaN, which is not 100 times the
claimed fraction (vacuously 0/0, which is 0 under the rational
convention). -/
theorem c1_counterexample :
    (LineageAnalyzer.analyze { nodes := [], edges := [] } [] [] []
      [c1_metric]).completeness_score = FVal.nan ∧
    FVal.nan ≠ FVal.val (100 * ((0 : ℚ) / (0 : ℚ))) := by
  constructor
  · show LineageAnalyzer.calculate_completeness_score { nodes := [], edges := [] }
      [c1_metric] [] = FVal.nan
    unfold LineageAnalyzer.calculate_completeness_score
    simp [fdiv, fmul100]
  · intro h
    exact FVal.noConfusion h

/-- C1 (amended): for graphs with distinct node ids, the completeness
score is 100.0 for an empty metric list, and — provided the graph has
at least one Metric node — 100 times the fraction of Metric nodes whose
forward traversal succeeds, where the traversal test coincides exactly
with reachability of a Source-typed node. -/
theorem c1_completeness_characterization (graph : LineageGraph)
    (models : List DbtModel) (sources : List DbtSource)
    (semantic_models : List SemanticModel) (metrics : List Metric)
    (hids : (graph.nodes.map LineageNode.id).Nodup) :
    (metrics = [] →
      (LineageAnalyzer.analyze graph models sources semantic_models
        metrics).completeness_score = FVal.val 100) ∧
    (metrics ≠ [] → (∃ n ∈ graph.nodes, n.node_type = LineageNodeType.Metric) →
      (LineageAnalyzer.analyze graph models sources semantic_models
        metrics).completeness_score =
        FVal.val (100 *
          ((((graph.nodes.filter (fun n =>
            decide (n.node_type = LineageNodeType.Metric))).filter
            (fun m => LineageAnalyzer.has_complete_lineage graph m.id)).length : ℚ)) /
          (((graph.nodes.filter (fun n =>
            decide (n.node_type = LineageNodeType.Metric))).length : ℚ)))) ∧
    (∀ start : String,
      LineageAnalyzer.has_complete_lineage graph start = true ↔
        reachesSource graph start) := by
  refine ⟨?_, ?_, fun s => has_complete_lineage_iff hids s⟩
  · intro h
    subst h
    rfl
  · intro hne hex
    obtain ⟨m, rest, rfl⟩ : ∃ m rest, metrics = m :: rest := by
      cases metrics with
      | nil => exact absurd rfl hne
      | cons m rest => exact ⟨m, rest, rfl⟩
    have hT : (graph.nodes.filter (fun n =>
        decide (n.node_type = LineageNodeType.Metric))).length ≠ 0 := by
      obtain ⟨n, hn, htype⟩ := hex
      have hmem : n ∈ graph.nodes.filter (fun n =>
          decide (n.node_type = LineageNodeType.Metric)) :=
        List.mem_filter.mpr ⟨hn, by simp [htype]⟩
      intro h0
      rw [List.length_eq_zero] at h0
      rw [h0] at hmem
      cases hmem
    have hTQ : ((graph.nodes.filter (fun n =>
        decide (n.node_type = LineageNodeType.Metric))).length : ℚ) ≠ 0 := by
      exact_mod_cast hT
    show fmul100 (fdiv
      ((((graph.nodes.filter (fun n =>
        decide (n.node_type = LineageNodeType.Metric))).filter
        (fun m => LineageAnalyzer.has_complete_lineage graph m.id)).length : ℚ))
      (((graph.nodes.filter (fun n =>
        decide (n.node_type = LineageNodeType.Metric))).length : ℚ))) = _
    unfold fdiv
    rw [if_neg hTQ]
    show FVal.val _ = FVal.val _
    congr 1
    ring

/-- C1 witness: a one-metric graph wired to a source, with distinct
ids, instantiating the amended fraction formula. -/
theorem c1_witness :
    (c1_graph.nodes.map LineageNode.id).Nodup ∧
    (LineageAnalyzer.analyze c1_graph [] [] [] [c1_metric]).completeness_score =
      FVal.val (100 *
        ((((c1_graph.nodes.filter (fun n =>
          decide (n.node_type = LineageNodeType.Metric))).filter
          (fun m => LineageAnalyzer.has_complete_lineage c1_graph m.id)).length : ℚ)) /
        (((c1_graph.nodes.filter (fun n =>
          decide (n.node_type = LineageNodeType.Metric))).length : ℚ))) :=
  ⟨by decide,
    (c1_completeness_characterization c1_graph [] [] [] [c1_metric] (by decide)).2.1
      (by decide) (by decide)⟩

/-- C3 counterexample: model `a` references model `b` and there is no
entity node at all, so the claim (issues exactly for models never
referenced from an entity-originating edge) demands issues for both
models, yet the code emits one only for `a` — the model-to-model edge
already counts as a reference for `b`. -/
theorem c3_counterexample :
    LineageAnalyzer.check_orphaned_models c3_graph [c3_model_a, c3_model_b]
      = [LineageAnalyzer.orphanedModelIssue c3_graph c3_model_a] ∧
    ¬ (∃ e ∈ c3_graph.edges, ∃ o ∈ c3_graph.nodes,
        o.id = e.source ∧ o.node_type = LineageNodeType.Entity) := by
  constructor
  · decide
  · decide

/-- C3 (amended): for graphs with distinct node ids, the orphaned-model
check emits one Info issue exactly for each model whose name never
appears as the name of a Model-typed node sitting at the target of any
edge, regardless of the edge's origin. -/
theorem c3_orphaned_models_characterization (graph : LineageGraph)
    (models : List DbtModel) (hids : (graph.nodes.map LineageNode.id).Nodup) :
    LineageAnalyzer.check_orphaned_models graph models =
      (models.filter (fun m => decide (¬ ∃ e ∈ graph.edges, ∃ n ∈ graph.nodes,
        n.id = e.target ∧ n.node_type = LineageNodeType.Model ∧
        n.name = m.name))).map (LineageAnalyzer.orphanedModelIssue graph) ∧
    ∀ m : DbtModel,
      (LineageAnalyzer.orphanedModelIssue graph m).severity = IssueSeverity.Info ∧
      (LineageAnalyzer.orphanedModelIssue graph m).issue_type = IssueType.OrphanedModel := by
  refine ⟨?_, fun m => ⟨rfl, rfl⟩⟩
  unfold LineageAnalyzer.check_orphaned_models
  congr 1
  apply List.filter_congr
  intro m _
  simp only [decide_eq_decide]
  exact not_congr (mem_referenced_model_names_iff hids m.name)

/-- C3 witness: the two-model build instantiating the amended
characterization. -/
theorem c3_witness :
    (c3_graph.nodes.map LineageNode.id).Nodup ∧
    LineageAnalyzer.check_orphaned_models c3_graph [c3_model_a, c3_model_b] =
      ([c3_model_a, c3_model_b].filter (fun m => decide (¬ ∃ e ∈ c3_graph.edges,
        ∃ n ∈ c3_graph.nodes, n.id = e.target ∧ n.node_type = LineageNodeType.Model ∧
        n.name = m.name))).map (LineageAnalyzer.orphanedModelIssue c3_graph) :=
  ⟨by decide,
    (c3_orphaned_models_characterization c3_graph [c3_model_a, c3_model_b]
      (by decide)).1⟩

/-- C7: the upstream-lineage query errors exactly when no Metric-typed
node bears the queried name (case-sensitively), and on success the
returned nodes are those of the input reachable from the first matching
node in graph order. -/
theorem c7_metric_lineage_lookup (pr : ParseResult) (metric_name : String) :
    ((∃ msg, get_metric_lineage pr metric_name = Except.error msg) ↔
      ¬ ∃ n ∈ pr.lineage.nodes, n.name = metric_name ∧
        n.node_type = LineageNodeType.Metric) ∧
    (∀ mnode, pr.lineage.nodes.find? (fun n =>
        decide (n.name = metric_name ∧ n.node_type = LineageNodeType.Metric))
        = some mnode →
      ∃ r, get_metric_lineage pr metric_name = Except.ok r ∧
        ∀ x : LineageNode, x ∈ r.lineage.nodes ↔ x ∈ pr.lineage.nodes ∧
          Relation.ReflTransGen (EdgeStep pr.lineage.edges forwardSel)
            mnode.id x.id) := by
  constructor
  · cases hfind : pr.lineage.nodes.find? (fun n =>
        decide (n.name = metric_name ∧ n.node_type = LineageNodeType.Metric)) with
    | none =>
      constructor
      · intro _
        rw [List.find?_eq_none] at hfind
        rintro ⟨n, hn, hname, htype⟩
        have := hfind n hn
        simp [hname, htype] at this
      · intro _
        refine ⟨"Metric " ++ metric_name ++ " not found", ?_⟩
        unfold get_metric_lineage
        rw [hfind]
    | some mnode =>
      constructor
      · rintro ⟨msg, hmsg⟩
        unfold get_metric_lineage at hmsg
        rw [hfind] at hmsg
        cases hmsg
      · intro hno
        exfalso
        apply hno
        have hm := List.mem_of_find?_eq_some hfind
        have hp := List.find?_some hfind
        simp only [decide_eq_true_eq] at hp
        exact ⟨mnode, hm, hp.1, hp.2⟩
  · intro mnode hfind
    refine ⟨{ ParseResult.default with
      success := true
      lineage :=
        { nodes := pr.lineage.nodes.filter (fun n => decide (n.id ∈
            traverseF pr.lineage.edges forwardSel (bfsFuel pr.lineage.edges)
              [mnode.id] []))
          edges := pr.lineage.edges.filter (fun e => decide (e.source ∈
            traverseF pr.lineage.edges forwardSel (bfsFuel pr.lineage.edges)
              [mnode.id] [] ∧ e.target ∈
            traverseF pr.lineage.edges forwardSel (bfsFuel pr.lineage.edges)
              [mnode.id] [])) } }, ?_, ?_⟩
    · unfold get_metric_lineage
      rw [hfind]
    · intro x
      constructor
      · intro hx
        obtain ⟨h1, h2⟩ := List.mem_filter.mp hx
        simp only [decide_eq_true_eq] at h2
        exact ⟨h1, (mem_traverse_run _ _ _ _).mp h2⟩
      · rintro ⟨h1, h2⟩
        refine List.mem_filter.mpr ⟨h1, ?_⟩
        simp only [decide_eq_true_eq]
        exact (mem_traverse_run _ _ _ _).mpr h2

/-- C7 witness: a two-node lineage where the query succeeds on the first
matching metric node. -/
theorem c7_witness :
    (c7_pr.lineage.nodes.find? (fun n =>
      decide (n.name = "m" ∧ n.node_type = LineageNodeType.Metric)) = some c7_node) ∧
    (∃ r, get_metric_lineage c7_pr "m" = Except.ok r ∧
      ∀ x : LineageNode, x ∈ r.lineage.nodes ↔ x ∈ c7_pr.lineage.nodes ∧
        Relation.ReflTransGen (EdgeStep c7_pr.lineage.edges forwardSel)
          c7_node.id x.id) :=
  ⟨by decide, (c7_metric_lineage_lookup c7_pr "m").2 c7_node (by decide)⟩

/-- C8 counterexample: two Metric nodes share the queried name with
different ids; permuting the node list changes which node the query
starts from, so the resulting id set changes. -/
theorem c8_counterexample :
    c8_pr2.lineage.nodes.Perm c8_pr1.lineage.nodes ∧
    c8_pr2.lineage.edges.Perm c8_pr1.lineage.edges ∧
    "a" ∈ resultNodeIds (get_metric_lineage c8_pr1 "m") ∧
    "a" ∉ resultNodeIds (get_metric_lineage c8_pr2 "m") := by
  refine ⟨List.Perm.swap _ _ _, List.Perm.refl _, by decide, by decide⟩

/-- C8 (amended): provided all Metric nodes bearing the queried name
share one id (in particular when the name is unambiguous), permuting
the node and edge lists leaves the resulting reachable node-id set
unchanged. -/
theorem c8_permutation_invariance (pr pr' : ParseResult) (metric_name : String)
    (hnodes : pr'.lineage.nodes.Perm pr.lineage.nodes)
    (hedges : pr'.lineage.edges.Perm pr.lineage.edges)
    (huniq : ∀ n1 ∈ pr.lineage.nodes, ∀ n2 ∈ pr.lineage.nodes,
      n1.name = metric_name → n1.node_type = LineageNodeType.Metric →
      n2.name = metric_name → n2.node_type = LineageNodeType.Metric →
      n1.id = n2.id) :
    ∀ x : String, x ∈ resultNodeIds (get_metric_lineage pr metric_name) ↔
      x ∈ resultNodeIds (get_metric_lineage pr' metric_name) := by
  intro x
  cases hf : pr.lineage.nodes.find? (fun n =>
      decide (n.name = metric_name ∧ n.node_type = LineageNodeType.Metric)) with
  | none =>
    cases hf' : pr'.lineage.nodes.find? (fun n =>
        decide (n.name = metric_name ∧ n.node_type = LineageNodeType.Metric)) with
    | none => simp only [get_metric_lineage, hf, hf', resultNodeIds]
    | some n' =>
      exfalso
      rw [List.find?_eq_none] at hf
      have hn' := List.mem_of_find?_eq_some hf'
      have hp' := List.find?_some hf'
      exact hf n' (hnodes.mem_iff.mp hn') hp'
  | some n =>
    cases hf' : pr'.lineage.nodes.find? (fun n =>
        decide (n.name = metric_name ∧ n.node_type = LineageNodeType.Metric)) with
    | none =>
      exfalso
      rw [List.find?_eq_none] at hf'
      have hn := List.mem_of_find?_eq_some hf
      have hp := List.find?_some hf
      exact hf' n (hnodes.mem_iff.mpr hn) hp
    | some n' =>
      have hn := List.mem_of_find?_eq_some hf
      have hn'2 := List.mem_of_find?_eq_some hf'
      have hn' : n' ∈ pr.lineage.nodes := hnodes.mem_iff.mp hn'2
      have hpn := List.find?_some hf
      have hpn' := List.find?_some hf'
      simp only [decide_eq_true_eq] at hpn hpn'
      have hid : n.id = n'.id := huniq n hn n' hn' hpn.1 hpn.2 hpn'.1 hpn'.2
      simp only [get_metric_lineage, hf, hf', resultNodeIds]
      rw [mem_result_node_ids_iff, mem_result_node_ids_iff]
      constructor
      · rintro ⟨⟨nd, hnd, hx⟩, hrtg⟩
        refine ⟨⟨nd, hnodes.mem_iff.mpr hnd, hx⟩, ?_⟩
        rw [← hid]
        exact rtg_edgeStep_of_perm hedges.symm forwardSel hrtg
      · rintro ⟨⟨nd, hnd, hx⟩, hrtg⟩
        refine ⟨⟨nd, hnodes.mem_iff.mp hnd, hx⟩, ?_⟩
        rw [hid]
        exact rtg_edgeStep_of_perm hedges forwardSel hrtg

/-- C8 witness: a permuted two-node lineage with an unambiguous metric
name, instantiated at the source node's id. -/
theorem c8_witness :
    c8_prw2.lineage.nodes.Perm c8_prw1.lineage.nodes ∧
    c8_prw2.lineage.edges.Perm c8_prw1.lineage.edges ∧
    ("s" ∈ resultNodeIds (get_metric_lineage c8_prw1 "m") ↔
      "s" ∈ resultNodeIds (get_metric_lineage c8_prw2 "m")) :=
  ⟨List.Perm.swap _ _ _, List.Perm.refl _,
    c8_permutation_invariance c8_prw1 c8_prw2 "m" (List.Perm.swap _ _ _)
      (List.Perm.refl _) (by decide) "s"⟩

/-- C10: on success both queries return a result built from
`ParseResult::default()` — empty entity lists, empty errors and
warnings, all-zero audit scores, `success = true` — carrying only the
filtered node and edge lists, which are sublists (hence order-
preserving) of the originals. -/
theorem c10_query_result_shape (pr : ParseResult) (name : String) :
    (∀ r, get_metric_lineage pr name = Except.ok r →
      r.success = true ∧ r.dbt_project = none ∧ r.models = [] ∧ r.sources = [] ∧
      r.semantic_models = [] ∧ r.metrics = [] ∧ r.errors = [] ∧ r.warnings = [] ∧
      r.audit.completeness_score = FVal.val 0 ∧
      r.audit.documentation_coverage = FVal.val 0 ∧
      r.audit.model_coverage = FVal.val 0 ∧
      r.lineage.nodes.Sublist pr.lineage.nodes ∧
      r.lineage.edges.Sublist pr.lineage.edges) ∧
    (∀ r, get_impact_analysis pr name = Except.ok r →
      r.success = true ∧ r.dbt_project = none ∧ r.models = [] ∧ r.sources = [] ∧
      r.semantic_models = [] ∧ r.metrics = [] ∧ r.errors = [] ∧ r.warnings = [] ∧
      r.audit.completeness_score = FVal.val 0 ∧
      r.audit.documentation_coverage = FVal.val 0 ∧
      r.audit.model_coverage = FVal.val 0 ∧
      r.lineage.nodes.Sublist pr.lineage.nodes ∧
      r.lineage.edges.Sublist pr.lineage.edges) := by
  constructor
  · intro r hr
    unfold get_metric_lineage at hr
    cases hfind : pr.lineage.nodes.find? (fun n =>
        decide (n.name = name ∧ n.node_type = LineageNodeType.Metric)) with
    | none =>
      rw [hfind] at hr
      cases hr
    | some mnode =>
      rw [hfind] at hr
      cases hr
      exact ⟨rfl, rfl, rfl, rfl, rfl, rfl, rfl, rfl, rfl, rfl, rfl,
        List.filter_sublist _, List.filter_sublist _⟩
  · intro r hr
    unfold get_impact_analysis at hr
    cases hfind : pr.lineage.nodes.find? (fun n => decide (n.name = name)) with
    | none =>
      rw [hfind] at hr
      cases hr
    | some target_node =>
      rw [hfind] at hr
      cases hr
      exact ⟨rfl, rfl, rfl, rfl, rfl, rfl, rfl, rfl, rfl, rfl, rfl,
        List.filter_sublist _, List.filter_sublist _⟩

/-- C10 witness: a one-node lineage on which the metric query succeeds
with the expected default-shaped result. -/
theorem c10_witness :
    get_metric_lineage c10_pr "m" = Except.ok c10_expected ∧
    (c10_expected.success = true ∧ c10_expected.dbt_project = none ∧
      c10_expected.models = [] ∧ c10_expected.sources = [] ∧
      c10_expected.semantic_models = [] ∧ c10_expected.metrics = [] ∧
      c10_expected.errors = [] ∧ c10_expected.warnings = [] ∧
      c10_expected.audit.completeness_score = FVal.val 0 ∧
      c10_expected.audit.documentation_coverage = FVal.val 0 ∧
      c10_expected.audit.model_coverage = FVal.val 0 ∧
      c10_expected.lineage.nodes.Sublist c10_pr.lineage.nodes ∧
      c10_expected.lineage.edges.Sublist c10_pr.lineage.edges) :=
  ⟨by rfl, (c10_query_result_shape c10_pr "m").1 c10_expected (by rfl)⟩

end SemanticTracer
